import Mathlib

/- A shallow embedding of split.py: the orchestration loop (main), the
   linker-script synthesis (write_ldscript), the unresolved-symbol exports,
   segment-class resolution and the split cache.  Region handlers (the
   segtypes package) are external collaborators per the handler contract:
   their per-run outputs (should_run, the cache fingerprint, glabels sets,
   the ld section text) appear as data fields on Segment. -/

/-- Membership test on a list of strings (Python `in` on a set of names). -/
def memb (n : String) : List String → Bool
  | [] => false
  | x :: xs => if x = n then true else memb n xs

/-- Set union as used for the `defined_funcs |= segment.glabels_added`
    accumulation: preserves membership, order immaterial. -/
def setUnion (xs ys : List String) : List String :=
  xs ++ ys.filter (fun y => !(memb y xs))

/-- Prepends a character to the first piece of a split (the non-separator
    step of Python str.split). -/
def consHead (x : Char) : List (List Char) → List (List Char)
  | [] => [[x]]
  | h :: t => (x :: h) :: t

/-- Python str.split(c) on character lists. -/
def splitOnChar (c : Char) : List Char → List (List Char)
  | [] => [[]]
  | x :: xs =>
    if x = c then [] :: splitOnChar c xs
    else consHead x (splitOnChar c xs)

/-- Python s.replace of a newline by a newline plus four spaces, as in
    write_ldscript's indentation of embedded newlines. -/
def indentNewlines : List Char → List Char
  | [] => []
  | c :: cs =>
    if c = '\n' then '\n' :: ' ' :: ' ' :: ' ' :: ' ' :: indentNewlines cs
    else c :: indentNewlines cs

/-- Python sep.join on character lists. -/
def joinSep (sep : List Char) : List (List Char) → List Char
  | [] => []
  | [x] => x
  | x :: y :: rest => x ++ sep ++ joinSep sep (y :: rest)

/-- Python s.take-all-but-the-last-n slice s[:-n]. -/
def dropLastN (n : Nat) (l : List Char) : List Char :=
  l.take (l.length - n)

/-- write_ldscript from split.py, modelled as the text written to the .ld
    file (file placement from rom_name and repo_path is omitted).  In the
    non-bare branch the code writes the section texts joined by a newline
    plus four spaces, with embedded newlines indented, and drops the last
    four characters of that joined text before the closing brace line. -/
def write_ldscript (sections : List String) (bare : Bool) : String :=
  if bare then String.mk (joinSep "\n".data (sections.map String.data))
  else
    String.mk
      ("SECTIONS\n\x7b\n    ".data
        ++ dropLastN 4 (joinSep "\n    ".data (sections.map (fun s => indentNewlines s.data)))
        ++ "\x7d\n".data)

/-- One line of undefined_funcs_auto.txt, from split.py:
    line + " = 0x" + line.split("_")[1][:8].upper() + ";".  (For a name
    with no underscore the Python raises IndexError; here the segment
    after the first underscore defaults to empty.) -/
def fnLine (name : String) : String :=
  String.mk (name.data ++ " = 0x".data
    ++ (((splitOnChar '_' name.data).getD 1 []).take 8).map Char.toUpper
    ++ ";".data)

/-- One line of undefined_syms_auto.txt: the name, then the name with its
    first two characters removed as the hex address text. -/
def symLine (sym : String) : String :=
  String.mk (sym.data ++ " = 0x".data ++ sym.data.drop 2 ++ ";".data)

/-- Code-point comparison of character lists, the order Python's sorted
    uses on strings. -/
def charListLe : List Char → List Char → Bool
  | [], _ => true
  | _ :: _, [] => false
  | a :: as, b :: bs =>
    if a.toNat < b.toNat then true
    else if b.toNat < a.toNat then false
    else charListLe as bs

/-- String comparison by code points. -/
def strLe (a b : String) : Bool := charListLe a.data b.data

/-- Insertion of a string into a sorted list. -/
def insertStr (a : String) : List String → List String
  | [] => [a]
  | b :: bs => if strLe a b then a :: b :: bs else b :: insertStr a bs

/-- Python sorted() on a list of strings. -/
def sortStr : List String → List String
  | [] => []
  | a :: as => insertStr a (sortStr as)

/-- Python equality between an exported function name (a string) and an
    element of c_predefined_funcs: set(c_funcs.keys()) at line 273 holds
    the integer addresses c_funcs is keyed by (funcs[addr] = name, line
    77), and in Python a string never equals an integer, so this test is
    always false. -/
def strEqAddr (_ : String) (_ : Nat) : Bool := false

/-- Membership of a name in the set of declared integer addresses (the
    test the set difference at line 274 performs element by element):
    always false across the types. -/
def membAddr (n : String) : List Nat → Bool
  | [] => false
  | a :: rest => if strEqAddr n a = true then true else membAddr n rest

/-- sorted(undefined_funcs - defined_funcs - c_predefined_funcs): the set
    difference then sorting, deduplicated as Python sets are.  The second
    subtrahend is set(c_funcs.keys()), a set of integer addresses, so
    that subtraction removes no string name. -/
def exportFuncs (undefFuncs definedF : List String) (declaredAddrs : List Nat) : List String :=
  sortStr ((undefFuncs.filter
    (fun n => !(memb n definedF) && !(membAddr n declaredAddrs))).dedup)

/-- sorted(undefined_syms): every requested symbol is exported. -/
def exportSyms (undefSyms : List String) : List String :=
  sortStr undefSyms.dedup

/-- Lookup in the pickled cache dict (cache.get, None when absent). -/
def cacheGet : List (String × Nat) → String → Option Nat
  | [], _ => none
  | (k, v) :: rest, key => if k = key then some v else cacheGet rest key

/-- Dict store cache[key] = v: replace in place, else append. -/
def cacheSet : List (String × Nat) → String → Nat → List (String × Nat)
  | [], key, v => [(key, v)]
  | (k, w) :: rest, key, v =>
    if k = key then (k, v) :: rest else (k, w) :: cacheSet rest key v

/-- seg_sizes-style dict update: initialize the key to 0 when new, then
    add n to it. -/
def bump : List (String × Nat) → String → Nat → List (String × Nat)
  | [], key, n => [(key, n)]
  | (k, v) :: rest, key, n =>
    if k = key then (k, v + n) :: rest else (k, v) :: bump rest key n

/-- Dict init for seg_split / seg_cached: add (key, 0) when the key is new. -/
def ensure : List (String × Nat) → String → List (String × Nat)
  | [], key => [(key, 0)]
  | (k, v) :: rest, key =>
    if k = key then (k, v) :: rest else (k, v) :: ensure rest key

/-- seg_sizes.get(key, 0). -/
def getSize : List (String × Nat) → String → Nat
  | [], _ => 0
  | (k, v) :: rest, key => if k = key then v else getSize rest key

/-- The statistics loop summing every bucket other than "unk". -/
def restSize : List (String × Nat) → Nat
  | [] => 0
  | (k, v) :: rest => if k = "unk" then restSize rest else v + restSize rest

/-- The sum of every bucket's value. -/
def sumValues : List (String × Nat) → Nat
  | [] => 0
  | (_, v) :: rest => v + sumValues rest

/-- Whether a key is present in the dict. -/
def hasKey : List (String × Nat) → String → Bool
  | [], _ => false
  | (k, _) :: rest, key => if k = key then true else hasKey rest key

/-- Dicts built by bump / ensure have pairwise distinct keys. -/
def keysOk : List (String × Nat) → Bool
  | [] => true
  | (k, _) :: rest => !(hasKey rest k) && keysOk rest

/-- One declared region, past construction: the fields split.py's main
    reads.  Handler-computed values (should_run, the cache fingerprint,
    the glabels sets produced by split, the ld section) are data, since
    the handlers live outside this core. -/
structure Segment where
  type : String
  name : String
  romStart : Nat
  romLength : Nat
  requireUniqueName : Bool
  isNameDefault : Bool
  shouldRun : Bool
  cacheVal : Nat
  uniqueId : String
  isCode : Bool
  glabelsAdded : List String
  glabelsToAdd : List String
  undefinedSymsToAdd : List String
  ldSection : String

/-- tp as computed at the statistics bucketing: a default-named bin
    segment is rebucketed as "unk". -/
def tpOf (s : Segment) : String :=
  if s.type = "bin" ∧ s.isNameDefault = true then "unk" else s.type

/-- The mutable state of the orchestration loop. -/
structure RunState where
  ranSegments : List Segment
  ldSections : List String
  seenNames : List String
  definedFuncs : List String
  undefinedFuncs : List String
  undefinedSyms : List String
  segSizes : List (String × Nat)
  segSplit : List (String × Nat)
  segCached : List (String × Nat)
  cache : List (String × Nat)

/-- The loop state at entry, with the loaded (possibly empty) cache. -/
def initState (loadedCache : List (String × Nat)) : RunState :=
  { ranSegments := [], ldSections := [], seenNames := [],
    definedFuncs := [], undefinedFuncs := [], undefinedSyms := [],
    segSizes := [], segSplit := [], segCached := [], cache := loadedCache }

/-- One iteration of the segment loop of split.py's main: the unique-name
    check, statistics bucketing, the should_run gate, the cache check
    (which on a hit skips extraction, post-processing registration and the
    ld-section collection via continue), extraction effects on the symbol
    accumulators, and the unconditional ld-section collection otherwise. -/
def stepSegment (ignoreCache : Bool) (st : RunState) (s : Segment) :
    Except String RunState :=
  if s.requireUniqueName = true ∧ memb s.name st.seenNames = true then
    .error ("ERROR: Segment name " ++ s.name ++ " is not unique")
  else
    let seenNames := if s.requireUniqueName then st.seenNames ++ [s.name] else st.seenNames
    let tp := tpOf s
    let segSizes := bump st.segSizes tp s.romLength
    let segSplit := ensure st.segSplit tp
    let segCached := ensure st.segCached tp
    if s.shouldRun = true then
      if ignoreCache = false ∧ cacheGet st.cache s.uniqueId = some s.cacheVal then
        .ok { st with seenNames := seenNames, segSizes := segSizes,
                      segSplit := segSplit, segCached := bump segCached tp 1 }
      else
        .ok { st with seenNames := seenNames, segSizes := segSizes,
                      segCached := segCached,
                      cache := cacheSet st.cache s.uniqueId s.cacheVal,
                      ranSegments := st.ranSegments ++ [s],
                      definedFuncs :=
                        if s.isCode then setUnion st.definedFuncs s.glabelsAdded
                        else st.definedFuncs,
                      undefinedFuncs :=
                        if s.isCode then setUnion st.undefinedFuncs s.glabelsToAdd
                        else st.undefinedFuncs,
                      undefinedSyms :=
                        if s.isCode then setUnion st.undefinedSyms s.undefinedSymsToAdd
                        else st.undefinedSyms,
                      segSplit := bump segSplit tp 1,
                      ldSections := st.ldSections ++ [s.ldSection] }
    else
      .ok { st with seenNames := seenNames, segSizes := segSizes,
                    segSplit := segSplit, segCached := segCached,
                    ldSections := st.ldSections ++ [s.ldSection] }

/-- The whole segment loop, in declaration order, aborting on the first
    fatal configuration error. -/
def processSegments (ignoreCache : Bool) : RunState → List Segment → Except String RunState
  | st, [] => .ok st
  | st, s :: rest =>
    match stepSegment ignoreCache st s with
    | .error e => .error e
    | .ok st' => processSegments ignoreCache st' rest

/-- The run configuration main receives: the force-full-rebuild flag
    (ignore_cache), the mode list and the bare-ldscript option. -/
structure MainCfg where
  ignoreCache : Bool
  modes : List String
  ldBare : Bool

/-- The observable outcome of a completed run: what was extracted and
    post-processed, which files were written and with what content (none
    models the absence of a write, leaving any stale file in place), the
    final symbol sets, the statistics buckets and the cache disposition. -/
structure RunResult where
  ranSegments : List Segment
  postProcessed : List Segment
  ldSections : List String
  ldscriptWritten : Bool
  ldscriptText : Option String
  definedFuncs : List String
  undefinedFuncs : List String
  undefinedSyms : List String
  funcsToWrite : List String
  symsToWrite : List String
  undefinedFuncsAuto : Option (List String)
  undefinedSymsAuto : Option (List String)
  segSizes : List (String × Nat)
  finalCache : List (String × Nat)
  cacheWritten : Bool

/-- main from split.py after loading (named mainRun since Lean reserves main): runs the segment loop over the
    constructed segments, post-processes exactly the segments that ran,
    writes the ldscript when the modes ask for it, writes each auto
    export only when non-empty, checks the statistics assertion (a Python
    assert failure aborts before the cache save), and saves the cache
    iff the in-memory dict is non-empty. -/
def mainRun (cfg : MainCfg) (loadedCache : List (String × Nat))
    (cFuncAddrs : List Nat) (segments : List Segment) (romLen : Nat) :
    Except String RunResult :=
  match processSegments cfg.ignoreCache (initState loadedCache) segments with
  | .error e => .error e
  | .ok st =>
    if getSize st.segSizes "unk" + restSize st.segSizes = romLen then
      .ok { ranSegments := st.ranSegments
            postProcessed := st.ranSegments
            ldSections := st.ldSections
            ldscriptWritten := memb "ld" cfg.modes || memb "all" cfg.modes
            ldscriptText :=
              if memb "ld" cfg.modes || memb "all" cfg.modes
              then some (write_ldscript st.ldSections cfg.ldBare) else none
            definedFuncs := st.definedFuncs
            undefinedFuncs := st.undefinedFuncs
            undefinedSyms := st.undefinedSyms
            funcsToWrite := exportFuncs st.undefinedFuncs st.definedFuncs cFuncAddrs
            symsToWrite := exportSyms st.undefinedSyms
            undefinedFuncsAuto :=
              if exportFuncs st.undefinedFuncs st.definedFuncs cFuncAddrs = [] then none
              else some ((exportFuncs st.undefinedFuncs st.definedFuncs cFuncAddrs).map fnLine)
            undefinedSymsAuto :=
              if exportSyms st.undefinedSyms = [] then none
              else some ((exportSyms st.undefinedSyms).map symLine)
            segSizes := st.segSizes
            finalCache := st.cache
            cacheWritten := !st.cache.isEmpty }
    else
      .error "AssertionError"

/-- The possible outcomes of looking a segment type up in the extension
    directory: the module loads and yields a class, the load raises (a
    missing file included), or no extension directory is configured. -/
inductive ExtLoad where
  | found (cls : String)
  | raises (msg : String)
  | noDir

/-- get_extension_class from split.py: a load failure is logged and turned
    into None; a missing extension directory is None without a log. -/
def get_extension_class : ExtLoad → Option String × List String
  | .noDir => (none, [])
  | .raises msg => (none, ["error: " ++ msg])
  | .found cls => (some cls, [])

/-- The segment-class resolution of main: the built-in class first, then
    the extension directory, and a fatal diagnostic naming the type when
    neither yields a class. -/
def resolveSegmentClass (builtin : Option String) (ext : ExtLoad)
    (segType : String) : Except String String :=
  match builtin with
  | some c => .ok c
  | none =>
    match (get_extension_class ext).1 with
    | some c => .ok c
    | none =>
      .error ("ERROR: could not load " ++ segType
        ++ " segment type. Confirm your extension directory is configured correctly")

/-- Whether a run completed (reached the end of main without a fatal
    abort, the statistics assertion included). -/
def isOkE : Except String RunResult → Bool
  | .ok _ => true
  | .error _ => false

/-- The total byte length of a list of segments. -/
def sumRomLengths : List Segment → Nat
  | [] => 0
  | s :: rest => s.romLength + sumRomLengths rest

/-- A concrete code segment for the worked examples: declared with name A,
    it requests func_80001000 during extraction and defines nothing. -/
def segA : Segment :=
  { type := "code", name := "A", romStart := 0, romLength := 16,
    requireUniqueName := true, isNameDefault := false, shouldRun := true,
    cacheVal := 1, uniqueId := "code_A_0", isCode := true,
    glabelsAdded := [], glabelsToAdd := ["func_80001000"],
    undefinedSymsToAdd := [], ldSection := "secA" }

/-- A concrete code segment with name B that defines func_80001000 and
    requests nothing. -/
def segB : Segment :=
  { segA with
    name := "B"
    romStart := 16
    uniqueId := "code_B_16"
    glabelsAdded := ["func_80001000"]
    glabelsToAdd := [] }

/-- A code segment requesting a name with two underscores, whose text
    after the first underscore is not the trailing 8 hex digits. -/
def segUnder : Segment :=
  { segA with
    glabelsToAdd := ["a_b_80001000"] }

/-- A code segment requesting the canonical single-underscore name. -/
def segC5 : Segment :=
  { segA with
    glabelsToAdd := ["func_80012345"] }

/-- A plain binary segment whose identity s1 carries fingerprint 7,
    matching the loaded cache in the cache-hit examples. -/
def segHit : Segment :=
  { type := "bin", name := "H", romStart := 0, romLength := 16,
    requireUniqueName := false, isNameDefault := false, shouldRun := true,
    cacheVal := 7, uniqueId := "s1", isCode := false,
    glabelsAdded := [], glabelsToAdd := [], undefinedSymsToAdd := [],
    ldSection := "secH" }

/-- A segment excluded by the mode filter (should_run false). -/
def segNoRun : Segment :=
  { segHit with
    name := "N"
    uniqueId := "s2"
    shouldRun := false
    ldSection := "secN" }

/-- A second segment that reuses the unique-required name A. -/
def segDupA : Segment :=
  { segA with
    romStart := 16
    uniqueId := "code_A_16" }

/-- The run configuration of a full run: every mode on, cache ignored. -/
def cfgAll : MainCfg := { ignoreCache := true, modes := ["all"], ldBare := false }

/-- A run configuration honoring the cache. -/
def cfgKeep : MainCfg := { ignoreCache := false, modes := ["all"], ldBare := false }

/-- A run configuration whose modes exclude the ldscript. -/
def cfgNoLd : MainCfg := { ignoreCache := true, modes := ["code"], ldBare := true }

/-- The state produced by the cache-hit step on segHit. -/
def stHit : RunState :=
  (stepSegment false (initState [("s1", 7)]) segHit).toOption.getD (initState [])

/-- The state produced by stepping the mode-excluded segNoRun. -/
def stNoRun : RunState :=
  (stepSegment false (initState []) segNoRun).toOption.getD (initState [])

/-- The state after processing segA alone. -/
def stA : RunState :=
  (stepSegment true (initState []) segA).toOption.getD (initState [])

/-- The state after processing segA then segB with the cache ignored. -/
def stC6 : RunState :=
  (processSegments cfgAll.ignoreCache (initState []) [segA, segB]).toOption.getD (initState [])

/-- A default run result, used only as the fallback of Option.getD. -/
def emptyResult : RunResult :=
  { ranSegments := [], postProcessed := [], ldSections := [],
    ldscriptWritten := false, ldscriptText := none,
    definedFuncs := [], undefinedFuncs := [], undefinedSyms := [],
    funcsToWrite := [], symsToWrite := [],
    undefinedFuncsAuto := none, undefinedSymsAuto := none,
    segSizes := [], finalCache := [], cacheWritten := false }

/-- The result of the run over segA then segB. -/
def resAB : RunResult :=
  (mainRun cfgAll [] [] [segA, segB] 32).toOption.getD emptyResult

/-- The result of the run over segC5 alone. -/
def resC5 : RunResult :=
  (mainRun cfgAll [] [] [segC5] 16).toOption.getD emptyResult

/-- The result of a cache-honoring run over segHit with its fingerprint
    already stored. -/
def resHit : RunResult :=
  (mainRun cfgKeep [("s1", 7)] [] [segHit] 16).toOption.getD emptyResult

/-- The result of a run whose modes exclude the ldscript. -/
def resNoLd : RunResult :=
  (mainRun cfgNoLd [] [] [segNoRun] 16).toOption.getD emptyResult

theorem memb_iff (n : String) (l : List String) : memb n l = true ↔ n ∈ l := by
  induction l with
  | nil => simp [memb]
  | cons x xs ih =>
    simp only [memb, List.mem_cons]
    by_cases h : x = n
    · simp [h]
    · have hnx : ¬ n = x := fun hn => h hn.symm
      simp [h, ih, hnx]

theorem charListLe_total : ∀ a b : List Char, charListLe a b = true ∨ charListLe b a = true
  | [], _ => Or.inl rfl
  | _ :: _, [] => Or.inr rfl
  | a :: as, b :: bs => by
    rcases Nat.lt_trichotomy a.toNat b.toNat with h | h | h
    · left
      simp [charListLe, h]
    · have h1 : ¬ a.toNat < b.toNat := by omega
      have h2 : ¬ b.toNat < a.toNat := by omega
      simpa [charListLe, h1, h2] using charListLe_total as bs
    · right
      simp [charListLe, h]

theorem charListLe_trans : ∀ a b c : List Char,
    charListLe a b = true → charListLe b c = true → charListLe a c = true
  | [], _, _, _, _ => rfl
  | _ :: _, [], _, h1, _ => by simp [charListLe] at h1
  | _ :: _, _ :: _, [], _, h2 => by simp [charListLe] at h2
  | a :: as, b :: bs, c :: cs, h1, h2 => by
    simp only [charListLe] at h1 h2 ⊢
    split_ifs at h1 h2 ⊢ <;> try rfl
    all_goals try omega
    all_goals exact charListLe_trans as bs cs h1 h2

theorem strLe_total (a b : String) : strLe a b = true ∨ strLe b a = true :=
  charListLe_total a.data b.data

theorem strLe_trans {a b c : String} (h1 : strLe a b = true) (h2 : strLe b c = true) :
    strLe a c = true :=
  charListLe_trans a.data b.data c.data h1 h2

theorem mem_insertStr {x a : String} : ∀ {l : List String},
    x ∈ insertStr a l ↔ x = a ∨ x ∈ l := by
  intro l
  induction l with
  | nil => simp [insertStr]
  | cons b bs ih =>
    simp only [insertStr]
    split_ifs with h
    · simp [List.mem_cons]
    · simp only [List.mem_cons, ih]
      tauto

theorem mem_sortStr {x : String} : ∀ {l : List String}, x ∈ sortStr l ↔ x ∈ l := by
  intro l
  induction l with
  | nil => simp [sortStr]
  | cons a as ih =>
    simp only [sortStr, mem_insertStr, List.mem_cons, ih]

theorem pairwise_insertStr {a : String} : ∀ {l : List String},
    l.Pairwise (fun x y => strLe x y = true) →
    (insertStr a l).Pairwise (fun x y => strLe x y = true) := by
  intro l
  induction l with
  | nil => simp [insertStr]
  | cons b bs ih =>
    intro h
    rw [List.pairwise_cons] at h
    simp only [insertStr]
    split_ifs with hab
    · rw [List.pairwise_cons]
      refine ⟨?_, List.pairwise_cons.mpr h⟩
      intro y hy
      rcases List.mem_cons.mp hy with rfl | hy
      · exact hab
      · exact strLe_trans hab (h.1 y hy)
    · rw [List.pairwise_cons]
      refine ⟨?_, ih h.2⟩
      intro y hy
      rcases mem_insertStr.mp hy with rfl | hy
      · rcases strLe_total y b with hc | hc
        · exact absurd hc hab
        · exact hc
      · exact h.1 y hy

theorem pairwise_sortStr : ∀ (l : List String),
    (sortStr l).Pairwise (fun x y => strLe x y = true)
  | [] => by simp [sortStr]
  | a :: as => by
    simp only [sortStr]
    exact pairwise_insertStr (pairwise_sortStr as)

theorem membAddr_false (n : String) : ∀ l : List Nat, membAddr n l = false
  | [] => rfl
  | a :: rest => by
    simp only [membAddr, strEqAddr]
    rw [if_neg (fun hc => Bool.noConfusion hc)]
    exact membAddr_false n rest

theorem mem_exportFuncs {n : String} {u d : List String} {c : List Nat} :
    n ∈ exportFuncs u d c ↔ n ∈ u ∧ n ∉ d := by
  simp only [exportFuncs, mem_sortStr, List.mem_dedup, List.mem_filter,
    Bool.and_eq_true, Bool.not_eq_true', membAddr_false, and_true]
  constructor
  · rintro ⟨hu, hd⟩
    refine ⟨hu, ?_⟩
    intro hmem
    rw [(memb_iff n d).mpr hmem] at hd
    exact Bool.noConfusion hd
  · rintro ⟨hu, hd⟩
    refine ⟨hu, ?_⟩
    cases hmb : memb n d with
    | false => rfl
    | true => exact absurd ((memb_iff n d).mp hmb) hd

theorem exportFuncs_declared_noop (u d : List String) (c : List Nat) :
    exportFuncs u d c = exportFuncs u d [] := by
  unfold exportFuncs
  have hcong : ∀ x ∈ u,
      (!(memb x d) && !(membAddr x c)) = (!(memb x d) && !(membAddr x [])) := by
    intro x _
    rw [membAddr_false, membAddr_false]
  rw [List.filter_congr hcong]

theorem splitOnChar_of_not_mem {c : Char} : ∀ {l : List Char}, c ∉ l → splitOnChar c l = [l] := by
  intro l
  induction l with
  | nil => intro _; rfl
  | cons x xs ih =>
    intro h
    have hx : ¬ x = c := fun he => h (he ▸ List.mem_cons_self x xs)
    have hxs : c ∉ xs := fun hm => h (List.mem_cons_of_mem x hm)
    simp only [splitOnChar, ih hxs, if_neg hx, consHead]

theorem splitOnChar_append {c : Char} : ∀ {pre : List Char} (suf : List Char), c ∉ pre →
    splitOnChar c (pre ++ c :: suf) = pre :: splitOnChar c suf := by
  intro pre
  induction pre with
  | nil =>
    intro suf _
    simp [splitOnChar]
  | cons x xs ih =>
    intro suf h
    have hx : ¬ x = c := fun he => h (he ▸ List.mem_cons_self x xs)
    have hxs : c ∉ xs := fun hm => h (List.mem_cons_of_mem x hm)
    simp only [List.cons_append, List.append_eq, splitOnChar, ih suf hxs, if_neg hx, consHead]

theorem splitOnChar_head (c : Char) : ∀ l : List Char,
    ∃ t, splitOnChar c l = l.takeWhile (fun x => x != c) :: t := by
  intro l
  induction l with
  | nil => exact ⟨[], rfl⟩
  | cons x xs ih =>
    by_cases hx : x = c
    · refine ⟨splitOnChar c xs, ?_⟩
      subst hx
      simp [splitOnChar, List.takeWhile_cons]
    · obtain ⟨t, ht⟩ := ih
      refine ⟨t, ?_⟩
      have hb : (x != c) = true := by simp [hx]
      simp [splitOnChar, if_neg hx, ht, consHead, List.takeWhile_cons, hb]

theorem sumValues_bump : ∀ (m : List (String × Nat)) (k : String) (n : Nat),
    sumValues (bump m k n) = sumValues m + n := by
  intro m k n
  induction m with
  | nil => simp [bump, sumValues]
  | cons p rest ih =>
    obtain ⟨k', v⟩ := p
    simp only [bump]
    split_ifs with h
    · simp [sumValues]
      omega
    · simp [sumValues, ih]
      omega

theorem hasKey_bump : ∀ (m : List (String × Nat)) (k key : String) (n : Nat),
    hasKey (bump m k n) key = true ↔ (hasKey m key = true ∨ key = k) := by
  intro m k key n
  induction m with
  | nil =>
    simp only [bump, hasKey]
    constructor
    · intro h
      right
      by_cases he : k = key
      · exact he.symm
      · rw [if_neg he] at h
        exact Bool.noConfusion h
    · rintro (h | rfl)
      · exact Bool.noConfusion h
      · simp
  | cons p rest ih =>
    obtain ⟨k', v⟩ := p
    simp only [bump]
    split_ifs with h
    · subst h
      simp only [hasKey]
      split_ifs with h2
      · simp [h2]
      · tauto
    · simp only [hasKey]
      split_ifs with h2
      · simp
      · rw [ih]

theorem keysOk_bump : ∀ (m : List (String × Nat)) (k : String) (n : Nat),
    keysOk m = true → keysOk (bump m k n) = true := by
  intro m k n
  induction m with
  | nil => intro _; simp [bump, keysOk, hasKey]
  | cons p rest ih =>
    obtain ⟨k', v⟩ := p
    intro h
    simp only [keysOk, Bool.and_eq_true, Bool.not_eq_true'] at h
    simp only [bump]
    split_ifs with he
    · simp only [keysOk, Bool.and_eq_true, Bool.not_eq_true']
      exact h
    · simp only [keysOk, Bool.and_eq_true, Bool.not_eq_true']
      constructor
      · cases hb : hasKey (bump rest k n) k' with
        | false => rfl
        | true =>
          rcases (hasKey_bump rest k k' n).mp hb with hk | hk
          · rw [h.1] at hk
            exact Bool.noConfusion hk
          · exact absurd hk he
      · exact ih h.2

theorem restSize_of_no_unk : ∀ (m : List (String × Nat)),
    hasKey m "unk" = false → restSize m = sumValues m := by
  intro m
  induction m with
  | nil => intro _; rfl
  | cons p rest ih =>
    obtain ⟨k, v⟩ := p
    intro h
    simp only [hasKey] at h
    split_ifs at h with he
    simp only [restSize, sumValues, if_neg he, ih h]

theorem stats_split : ∀ (m : List (String × Nat)),
    keysOk m = true → getSize m "unk" + restSize m = sumValues m := by
  intro m
  induction m with
  | nil => intro _; rfl
  | cons p rest ih =>
    obtain ⟨k, v⟩ := p
    intro h
    simp only [keysOk, Bool.and_eq_true, Bool.not_eq_true'] at h
    simp only [getSize, restSize, sumValues]
    split_ifs with he
    · subst he
      rw [restSize_of_no_unk rest h.1]
    · have := ih h.2
      omega

theorem stepSegment_ok_segSizes {ic : Bool} {st : RunState} {s : Segment} {st' : RunState}
    (h : stepSegment ic st s = .ok st') :
    st'.segSizes = bump st.segSizes (tpOf s) s.romLength := by
  unfold stepSegment at h
  split_ifs at h <;>
    first
    | exact Except.noConfusion h
    | (injection h with h; subst h; rfl)

theorem processSegments_sizes {ic : Bool} : ∀ (segs : List Segment) (st st' : RunState),
    processSegments ic st segs = .ok st' →
    sumValues st'.segSizes = sumValues st.segSizes + sumRomLengths segs
    ∧ (keysOk st.segSizes = true → keysOk st'.segSizes = true) := by
  intro segs
  induction segs with
  | nil =>
    intro st st' h
    simp only [processSegments] at h
    injection h with h
    subst h
    simp [sumRomLengths]
  | cons s rest ih =>
    intro st st' h
    simp only [processSegments] at h
    cases hstep : stepSegment ic st s with
    | error e =>
      rw [hstep] at h
      exact Except.noConfusion h
    | ok st1 =>
      rw [hstep] at h
      have hrest := ih st1 st' h
      have hsz := stepSegment_ok_segSizes hstep
      constructor
      · rw [hrest.1, hsz, sumValues_bump]
        simp only [sumRomLengths]
        omega
      · intro hk
        exact hrest.2 (hsz ▸ keysOk_bump st.segSizes (tpOf s) s.romLength hk)

/-- C1: a region whose should_run is true and whose freshly computed
    fingerprint equals the cached one under its identity, with the
    force-full-rebuild flag not set, is skipped by the loop: no extraction
    (ranSegments, the symbol accumulators and the cache are untouched) and
    its linker-section descriptor is not collected, so it is also excluded
    from post-processing; a region whose should_run is false is neither
    cache-checked nor extracted, but its linker-section descriptor is
    still collected. -/
theorem c1_cache_skip_mode_collect (st st' : RunState) (s : Segment) :
    (s.shouldRun = true →
      cacheGet st.cache s.uniqueId = some s.cacheVal →
      stepSegment false st s = .ok st' →
      st'.ranSegments = st.ranSegments ∧ st'.ldSections = st.ldSections ∧
      st'.cache = st.cache ∧ st'.definedFuncs = st.definedFuncs ∧
      st'.undefinedFuncs = st.undefinedFuncs ∧ st'.undefinedSyms = st.undefinedSyms)
    ∧ (∀ ic : Bool, s.shouldRun = false →
      stepSegment ic st s = .ok st' →
      st'.ranSegments = st.ranSegments ∧ st'.cache = st.cache ∧
      st'.definedFuncs = st.definedFuncs ∧
      st'.ldSections = st.ldSections ++ [s.ldSection]) := by
  constructor
  · intro hrun hcache h
    by_cases hd : s.requireUniqueName = true ∧ memb s.name st.seenNames = true
    · simp only [stepSegment, if_pos hd] at h
      exact Except.noConfusion h
    · simp only [stepSegment, if_neg hd, hrun, hcache, eq_self_iff_true, and_self,
        if_true, Except.ok.injEq] at h
      subst h
      exact ⟨rfl, rfl, rfl, rfl, rfl, rfl⟩
  · intro ic hrun h
    by_cases hd : s.requireUniqueName = true ∧ memb s.name st.seenNames = true
    · simp only [stepSegment, if_pos hd] at h
      exact Except.noConfusion h
    · simp only [stepSegment, if_neg hd, hrun, Bool.false_eq_true, if_false,
        Except.ok.injEq] at h
      subst h
      exact ⟨rfl, rfl, rfl, rfl⟩

/-- C1 witness: the cache-hit skip on segHit whose fingerprint 7 is
    stored under s1, and the mode-excluded segNoRun still contributing
    its linker section. -/
theorem c1_cache_skip_mode_collect_witness :
    (segHit.shouldRun = true ∧
     cacheGet (initState [("s1", 7)]).cache segHit.uniqueId = some segHit.cacheVal ∧
     stepSegment false (initState [("s1", 7)]) segHit = .ok stHit ∧
     stHit.ranSegments = [] ∧ stHit.ldSections = [] ∧ stHit.cache = [("s1", 7)]) ∧
    (segNoRun.shouldRun = false ∧
     stepSegment false (initState []) segNoRun = .ok stNoRun ∧
     stNoRun.ranSegments = [] ∧ stNoRun.cache = [] ∧ stNoRun.ldSections = ["secN"]) := by
  constructor
  · refine ⟨rfl, rfl, rfl, ?_⟩
    have h := (c1_cache_skip_mode_collect (initState [("s1", 7)]) stHit segHit).1 rfl rfl rfl
    exact ⟨h.1, h.2.1, h.2.2.1⟩
  · refine ⟨rfl, rfl, ?_⟩
    have h := (c1_cache_skip_mode_collect (initState []) stNoRun segNoRun).2 false rfl rfl
    exact ⟨h.1, h.2.1, h.2.2.2⟩

theorem mainRun_ok_spec {cfg : MainCfg} {c0 : List (String × Nat)} {decl : List Nat}
    {segs : List Segment} {romLen : Nat} {res : RunResult}
    (h : mainRun cfg c0 decl segs romLen = .ok res) :
    res.funcsToWrite = exportFuncs res.undefinedFuncs res.definedFuncs decl
    ∧ res.undefinedFuncsAuto
        = (if res.funcsToWrite = [] then none else some (res.funcsToWrite.map fnLine))
    ∧ res.symsToWrite = exportSyms res.undefinedSyms
    ∧ res.undefinedSymsAuto
        = (if res.symsToWrite = [] then none else some (res.symsToWrite.map symLine))
    ∧ res.ldscriptWritten = (memb "ld" cfg.modes || memb "all" cfg.modes)
    ∧ res.ldscriptText
        = (if res.ldscriptWritten = true then some (write_ldscript res.ldSections cfg.ldBare)
           else none)
    ∧ res.cacheWritten = !res.finalCache.isEmpty := by
  unfold mainRun at h
  cases hps : processSegments cfg.ignoreCache (initState c0) segs with
  | error e =>
    simp only [hps] at h
    exact Except.noConfusion h
  | ok st =>
    simp only [hps] at h
    by_cases ha : getSize st.segSizes "unk" + restSize st.segSizes = romLen
    · rw [if_pos ha] at h
      injection h with h
      subst h
      exact ⟨rfl, rfl, rfl, rfl, rfl, rfl, rfl⟩
    · rw [if_neg ha] at h
      exact Except.noConfusion h

/-- C2 counterexample: region A is declared first and requests
    func_80001000, region B is declared second and defines it, the name is
    in no declared-function list; contrary to the claim, the name does not
    appear in the final unresolved-function export (the computed set is
    empty and no file is written at all). -/
theorem c2_counterexample :
    (mainRun cfgAll [] [] [segA, segB] 32).toOption.map RunResult.funcsToWrite = some []
    ∧ (mainRun cfgAll [] [] [segA, segB] 32).toOption.map RunResult.undefinedFuncsAuto
        = some none :=
  ⟨rfl, rfl⟩

/-- C2 amended: a name defined by any region that ran this run is absent
    from the final unresolved-function export regardless of declaration
    order, because the export subtracts the whole end-of-run defined set;
    declaration order only affects what the shared defined set contains
    while each region extracts. -/
theorem c2_defined_names_never_exported (cfg : MainCfg) (c0 : List (String × Nat))
    (decl : List Nat) (segs : List Segment) (romLen : Nat) (res : RunResult) (n : String)
    (h : mainRun cfg c0 decl segs romLen = .ok res) (hdef : n ∈ res.definedFuncs) :
    n ∉ res.funcsToWrite := by
  rw [(mainRun_ok_spec h).1]
  intro hmem
  exact (mem_exportFuncs.mp hmem).2 hdef

/-- C2 witness: in the run where A (first) requests func_80001000 and B
    (second) defines it, the name is defined and hence not exported. -/
theorem c2_defined_names_never_exported_witness :
    (mainRun cfgAll [] [] [segA, segB] 32 = .ok resAB
     ∧ "func_80001000" ∈ resAB.definedFuncs)
    ∧ "func_80001000" ∉ resAB.funcsToWrite :=
  ⟨⟨rfl, by decide⟩,
   c2_defined_names_never_exported cfgAll [] [] [segA, segB] 32 resAB "func_80001000"
     rfl (by decide)⟩

/-- C3 counterexample: a completed cache-honoring run in which the only
    checked fingerprint equals its stored value and nothing is added
    leaves the map unchanged, yet the cache is still rewritten, because
    the save is guarded only by the map being non-empty. -/
theorem c3_counterexample :
    (mainRun cfgKeep [("s1", 7)] [] [segHit] 16).toOption.map RunResult.cacheWritten
      = some true
    ∧ (mainRun cfgKeep [("s1", 7)] [] [segHit] 16).toOption.map RunResult.finalCache
        = some [("s1", 7)] :=
  ⟨rfl, rfl⟩

/-- C3 amended: at run end the persisted cache map is rewritten if and
    only if the in-memory map is non-empty, whether or not any fingerprint
    changed or was added; only a run ending with an empty map skips the
    write. -/
theorem c3_cache_written_iff_nonempty (cfg : MainCfg) (c0 : List (String × Nat))
    (decl : List Nat) (segs : List Segment) (romLen : Nat) (res : RunResult)
    (h : mainRun cfg c0 decl segs romLen = .ok res) :
    res.cacheWritten = true ↔ res.finalCache ≠ [] := by
  rw [(mainRun_ok_spec h).2.2.2.2.2.2]
  cases hc : res.finalCache with
  | nil => simp
  | cons p l => simp

/-- C3 witness: the unchanged-cache run over segHit. -/
theorem c3_cache_written_iff_nonempty_witness :
    mainRun cfgKeep [("s1", 7)] [] [segHit] 16 = .ok resHit
    ∧ (resHit.cacheWritten = true ↔ resHit.finalCache ≠ []) :=
  ⟨rfl, c3_cache_written_iff_nonempty cfgKeep [("s1", 7)] [] [segHit] 16 resHit rfl⟩

/-- C4 counterexample: for the three single-line descriptors A, B, C the
    default render mode does not produce the claimed wrapped text; the
    four-character cut applied to the joined body swallows the final
    descriptor. -/
theorem c4_counterexample :
    write_ldscript ["A", "B", "C"] false
      ≠ "SECTIONS\n\x7b\n    A\n    B\n    C\n\x7d\n" := by
  decide

/-- C4 amended: bare mode joins the descriptors with newlines, as
    claimed; default mode writes the block header, then the descriptors
    joined by a newline plus four spaces (indentation applied to embedded
    newlines) with the last four characters of that joined text removed,
    then the closing brace line; for the single-line descriptors A, B, C
    this loses the final descriptor and yields the text below. -/
theorem c4_render_modes :
    write_ldscript ["A", "B", "C"] true = "A\nB\nC"
    ∧ write_ldscript ["A", "B", "C"] false = "SECTIONS\n\x7b\n    A\n    B\n \x7d\n" := by
  exact ⟨by decide, by decide⟩

/-- C5 counterexample, two failures of the claim.  First, the written
    address is split("_")[1][:8].upper() - the field between the first
    and second underscore, truncated to eight characters - not the
    trailing eight hex digits: the requested name a_b_80001000 is
    exported as 0xB.  Second, the claim's only-if on the manually
    declared function list fails: with c_funcs mapping address 0x80001000
    to the name func_80001000 (so c_predefined_funcs is the integer set
    containing 0x80001000), the requested, undefined name func_80001000
    is declared yet still written, because subtracting integer addresses
    from string names removes nothing. -/
theorem c5_counterexample :
    ((mainRun cfgAll [] [] [segUnder] 16).toOption.map RunResult.undefinedFuncsAuto
      = some (some ["a_b_80001000 = 0xB;"])
     ∧ fnLine "a_b_80001000" ≠ "a_b_80001000 = 0x80001000;")
    ∧ (mainRun cfgAll [] [0x80001000] [segA] 16).toOption.map RunResult.undefinedFuncsAuto
        = some (some ["func_80001000 = 0x80001000;"]) := by
  exact ⟨⟨by decide, by decide⟩, by decide⟩

/-- C5 amended: the unresolved-function export is sorted by name and
    contains exactly the names requested but not defined this run - the
    subtraction of the manually declared function list is a no-op, since
    set(c_funcs.keys()) holds the integer addresses c_funcs is keyed by
    and never a string name.  Each line is the name, an equals sign, then
    0x followed by the name's second underscore-separated field (the text
    between the first underscore and the next underscore, or the end of
    the name) truncated to its first eight characters and uppercased
    (for a canonical single-underscore name such as func_80012345 this is
    the claimed 8-hex-digit recovery), then a semicolon. -/
theorem c5_unresolved_funcs_file (u d : List String) (c : List Nat) (n nm : String)
    (pre rest : List Char) :
    ((exportFuncs u d c).Pairwise (fun a b => strLe a b = true))
    ∧ (n ∈ exportFuncs u d c ↔ n ∈ u ∧ n ∉ d)
    ∧ exportFuncs u d c = exportFuncs u d []
    ∧ (nm.data = pre ++ '_' :: rest → '_' ∉ pre →
        fnLine nm = String.mk (nm.data ++ " = 0x".data
          ++ ((rest.takeWhile (fun x => x != '_')).take 8).map Char.toUpper ++ ";".data))
    ∧ (∀ (cfg : MainCfg) (c0 : List (String × Nat)) (segs : List Segment)
        (romLen : Nat) (res : RunResult),
        mainRun cfg c0 c segs romLen = .ok res →
        res.funcsToWrite = exportFuncs res.undefinedFuncs res.definedFuncs c
        ∧ res.undefinedFuncsAuto
            = (if res.funcsToWrite = [] then none
               else some (res.funcsToWrite.map fnLine))) := by
  refine ⟨pairwise_sortStr _, mem_exportFuncs, exportFuncs_declared_noop u d c, ?_, ?_⟩
  · intro hdata hpre
    unfold fnLine
    obtain ⟨t, ht⟩ := splitOnChar_head '_' rest
    rw [hdata, splitOnChar_append rest hpre, ht]
    rfl
  · intro cfg c0 segs romLen res h
    exact ⟨(mainRun_ok_spec h).1, (mainRun_ok_spec h).2.1⟩

/-- C5 witness: the two-underscore name a_b_80001000, whose second field
    is b, and the run over segC5. -/
theorem c5_unresolved_funcs_file_witness :
    ("a_b_80001000".data = "a".data ++ '_' :: "b_80001000".data
     ∧ '_' ∉ "a".data
     ∧ mainRun cfgAll [] [] [segC5] 16 = .ok resC5)
    ∧ (fnLine "a_b_80001000"
        = String.mk ("a_b_80001000".data ++ " = 0x".data
            ++ (("b_80001000".data.takeWhile (fun x => x != '_')).take 8).map Char.toUpper
            ++ ";".data)
       ∧ resC5.undefinedFuncsAuto
          = (if resC5.funcsToWrite = [] then none
             else some (resC5.funcsToWrite.map fnLine))) := by
  have h := c5_unresolved_funcs_file [] [] [] "x" "a_b_80001000" "a".data "b_80001000".data
  refine ⟨⟨by decide, by decide, rfl⟩, ?_, ?_⟩
  · exact h.2.2.2.1 (by decide) (by decide)
  · exact (h.2.2.2.2 cfgAll [] [segC5] 16 resC5 rfl).2

/-- C6: whenever the loop completes and the non-sentinel regions cover
    the binary (their lengths sum to the binary's byte length), the
    statistics assertion holds: the unknown bucket plus every other
    bucket equals the total, so main reaches its end rather than the
    assertion failure. -/
theorem c6_stats_assert (cfg : MainCfg) (c0 : List (String × Nat)) (decl : List Nat)
    (segs : List Segment) (st : RunState) (romLen : Nat)
    (h : processSegments cfg.ignoreCache (initState c0) segs = .ok st)
    (hp : sumRomLengths segs = romLen) :
    getSize st.segSizes "unk" + restSize st.segSizes = romLen
    ∧ isOkE (mainRun cfg c0 decl segs romLen) = true := by
  have hs := processSegments_sizes segs (initState c0) st h
  have hsum : sumValues st.segSizes = romLen := by
    have h1 := hs.1
    simp only [initState, sumValues] at h1
    omega
  have hk : keysOk st.segSizes = true := hs.2 rfl
  have hassert := stats_split st.segSizes hk
  have hA : getSize st.segSizes "unk" + restSize st.segSizes = romLen := by omega
  refine ⟨hA, ?_⟩
  unfold mainRun
  simp only [h]
  rw [if_pos hA]
  rfl

/-- C6 witness: the two-segment run covering the 32-byte binary. -/
theorem c6_stats_assert_witness :
    (processSegments cfgAll.ignoreCache (initState []) [segA, segB] = .ok stC6
     ∧ sumRomLengths [segA, segB] = 32)
    ∧ (getSize stC6.segSizes "unk" + restSize stC6.segSizes = 32
       ∧ isOkE (mainRun cfgAll [] [] [segA, segB] 32) = true) :=
  ⟨⟨rfl, by decide⟩, c6_stats_assert cfgAll [] [] [segA, segB] stC6 32 rfl (by decide)⟩

/-- C7: segment-class resolution takes the built-in class when there is
    one and otherwise falls back to the extension directory; an extension
    load that raises (a missing file included) is logged and treated as
    not found rather than crashing; and when neither source yields a
    class the run aborts with a diagnostic naming the kind. -/
theorem c7_class_resolution (builtin : Option String) (ext : ExtLoad) (segType c m : String) :
    (builtin = some c → resolveSegmentClass builtin ext segType = .ok c)
    ∧ (builtin = none → ext = .found c → resolveSegmentClass builtin ext segType = .ok c)
    ∧ (builtin = none → (ext = .raises m ∨ ext = .noDir) →
        resolveSegmentClass builtin ext segType =
          .error ("ERROR: could not load " ++ segType
            ++ " segment type. Confirm your extension directory is configured correctly"))
    ∧ ((get_extension_class (.raises m)).1 = none ∧ (get_extension_class (.raises m)).2 ≠ []) := by
  refine ⟨?_, ?_, ?_, rfl, ?_⟩
  · intro hb
    subst hb
    rfl
  · intro hb he
    subst hb
    subst he
    rfl
  · intro hb hor
    subst hb
    rcases hor with he | he <;> subst he <;> rfl
  · simp [get_extension_class]

/-- C7 witness: a built-in hit, and the fatal diagnostic when the
    built-in is missing and the extension load raises. -/
theorem c7_class_resolution_witness :
    ((some "N64SegBin" : Option String) = some "N64SegBin"
     ∧ resolveSegmentClass (some "N64SegBin") ExtLoad.noDir "bin" = .ok "N64SegBin")
    ∧ ((none : Option String) = none
       ∧ resolveSegmentClass none (ExtLoad.raises "boom") "dummy"
          = .error ("ERROR: could not load " ++ "dummy"
              ++ " segment type. Confirm your extension directory is configured correctly")) := by
  refine ⟨⟨rfl, ?_⟩, rfl, ?_⟩
  · exact (c7_class_resolution (some "N64SegBin") ExtLoad.noDir "bin" "N64SegBin" "x").1 rfl
  · exact (c7_class_resolution none (ExtLoad.raises "boom") "dummy" "c" "boom").2.2.1 rfl
      (Or.inl rfl)

/-- C8: a region whose kind requires a unique name and whose name was
    already seen makes the loop abort at once with a descriptive error, so
    the run ends in the error outcome and the cache save at the end of
    main is never reached; a region of a kind not requiring uniqueness
    never trips this abort. -/
theorem c8_unique_name_abort (ic : Bool) (st : RunState) (s s2 : Segment) :
    (s.requireUniqueName = true → memb s.name st.seenNames = true →
      stepSegment ic st s = .error ("ERROR: Segment name " ++ s.name ++ " is not unique"))
    ∧ (s2.requireUniqueName = false → ∃ st', stepSegment ic st s2 = .ok st')
    ∧ (∀ (cfg : MainCfg) (c0 : List (String × Nat)) (decl : List Nat)
        (segs : List Segment) (romLen : Nat) (e : String),
        processSegments cfg.ignoreCache (initState c0) segs = .error e →
        mainRun cfg c0 decl segs romLen = .error e) := by
  refine ⟨?_, ?_, ?_⟩
  · intro h1 h2
    unfold stepSegment
    rw [if_pos ⟨h1, h2⟩]
  · intro h2
    have hd : ¬(s2.requireUniqueName = true ∧ memb s2.name st.seenNames = true) := by
      intro hc
      rw [h2] at hc
      exact Bool.noConfusion hc.1
    unfold stepSegment
    rw [if_neg hd]
    split_ifs <;> exact ⟨_, rfl⟩
  · intro cfg c0 decl segs romLen e h
    unfold mainRun
    simp only [h]

/-- C8 witness: the duplicate unique-required name A aborts the step and
    the whole run, while the non-unique segNoRun steps through. -/
theorem c8_unique_name_abort_witness :
    (segDupA.requireUniqueName = true ∧ memb segDupA.name stA.seenNames = true
     ∧ stepSegment true stA segDupA
        = .error ("ERROR: Segment name " ++ segDupA.name ++ " is not unique"))
    ∧ (segNoRun.requireUniqueName = false ∧ ∃ st', stepSegment true stA segNoRun = .ok st')
    ∧ (processSegments cfgAll.ignoreCache (initState []) [segA, segDupA]
        = .error "ERROR: Segment name A is not unique"
       ∧ mainRun cfgAll [] [] [segA, segDupA] 32
          = .error "ERROR: Segment name A is not unique") := by
  have h := c8_unique_name_abort true stA segDupA segNoRun
  refine ⟨⟨rfl, by decide, h.1 rfl (by decide)⟩, ⟨rfl, h.2.1 rfl⟩, rfl, ?_⟩
  exact h.2.2 cfgAll [] [] [segA, segDupA] 32 "ERROR: Segment name A is not unique" rfl

/-- C9: on a completed run the unresolved-function file is written (some)
    exactly when its computed name list is non-empty, and likewise for
    the unresolved-symbol file; an empty list produces no write, leaving
    any stale file from an earlier run untouched. -/
theorem c9_export_files_only_when_nonempty (cfg : MainCfg) (c0 : List (String × Nat))
    (decl : List Nat) (segs : List Segment) (romLen : Nat) (res : RunResult)
    (h : mainRun cfg c0 decl segs romLen = .ok res) :
    (res.undefinedFuncsAuto = none ↔ res.funcsToWrite = [])
    ∧ (res.undefinedSymsAuto = none ↔ res.symsToWrite = []) := by
  obtain ⟨-, h2, -, h4, -⟩ := mainRun_ok_spec h
  constructor
  · rw [h2]
    split_ifs with he <;> simp [he]
  · rw [h4]
    split_ifs with he <;> simp [he]

/-- C9 witness: the run over segC5, whose function export is non-empty
    and whose symbol export is empty. -/
theorem c9_export_files_only_when_nonempty_witness :
    mainRun cfgAll [] [] [segC5] 16 = .ok resC5
    ∧ ((resC5.undefinedFuncsAuto = none ↔ resC5.funcsToWrite = [])
       ∧ (resC5.undefinedSymsAuto = none ↔ resC5.symsToWrite = [])) :=
  ⟨rfl, c9_export_files_only_when_nonempty cfgAll [] [] [segC5] 16 resC5 rfl⟩

/-- C10: the linker script is written exactly when the mode list contains
    ld or the catch-all all; and a region excluded by the mode filter
    still has its linker-section descriptor collected by the loop. -/
theorem c10_ldscript_mode_gate (cfg : MainCfg) (c0 : List (String × Nat))
    (decl : List Nat) (segs : List Segment) (romLen : Nat) (res : RunResult)
    (h : mainRun cfg c0 decl segs romLen = .ok res) :
    (res.ldscriptWritten = true ↔ ("ld" ∈ cfg.modes ∨ "all" ∈ cfg.modes))
    ∧ (res.ldscriptText = none ↔ res.ldscriptWritten = false)
    ∧ (∀ (ic : Bool) (st st' : RunState) (s : Segment), s.shouldRun = false →
        stepSegment ic st s = .ok st' → st'.ldSections = st.ldSections ++ [s.ldSection]) := by
  obtain ⟨-, -, -, -, h5, h6, -⟩ := mainRun_ok_spec h
  refine ⟨?_, ?_, ?_⟩
  · rw [h5]
    simp [memb_iff]
  · rw [h6]
    cases hw : res.ldscriptWritten <;> simp
  · intro ic st st' s hrun hstep
    by_cases hd : s.requireUniqueName = true ∧ memb s.name st.seenNames = true
    · simp only [stepSegment, if_pos hd] at hstep
      exact Except.noConfusion hstep
    · simp only [stepSegment, if_neg hd, hrun, Bool.false_eq_true, if_false,
        Except.ok.injEq] at hstep
      subst hstep
      rfl

/-- C10 witness: the run whose modes exclude the ldscript still collects
    the excluded region's descriptor though the script is not written. -/
theorem c10_ldscript_mode_gate_witness :
    (mainRun cfgNoLd [] [] [segNoRun] 16 = .ok resNoLd
     ∧ resNoLd.ldSections = ["secN"] ∧ resNoLd.ldscriptText = none)
    ∧ ((resNoLd.ldscriptWritten = true ↔ ("ld" ∈ cfgNoLd.modes ∨ "all" ∈ cfgNoLd.modes))
       ∧ (resNoLd.ldscriptText = none ↔ resNoLd.ldscriptWritten = false)) := by
  have h := c10_ldscript_mode_gate cfgNoLd [] [] [segNoRun] 16 resNoLd rfl
  exact ⟨⟨rfl, by decide, by decide⟩, h.1, h.2.1⟩
